import Mathlib

/-!
# Verification of the browsir popup-dismissal loop and content-extraction heuristics

Shallow embedding of the core of `app/main.py`,
`app/services/local_content_extractor.py`, `app/services/popup_detector.py`
and `app/services/browser_service.py`.

HTML documents are modelled as trees of element/text nodes; BeautifulSoup
queries (`find`, `find_all`, `select_one`, `get_text(strip=True)`) are
translated as pre-order searches over that tree.  External effects (the
OpenAI oracle, Playwright click outcomes) are modelled as environment
functions supplied to the embedded control flow.
-/

namespace Browsir

/-! ## Python string primitives -/

/-- Python truthiness of an optional string (`None` and `""` are falsy). -/
def strTruthy : Option String → Bool
  | none => false
  | some s => s ≠ ""

/-- Python `a or b` on optional strings: `b` when `a` is falsy. -/
def pyOr (a b : Option String) : Option String :=
  if strTruthy a then a else b

/-- Whitespace test used by `str.strip()` (ASCII whitespace suffices here). -/
def isWS (c : Char) : Bool := c.isWhitespace

/-- Python `str.strip()` on a character list: drop whitespace at both ends. -/
def stripChars (l : List Char) : List Char :=
  ((l.dropWhile isWS).reverse.dropWhile isWS).reverse

/-- Numeric value of a digit list (most significant first). -/
def digitsVal (l : List Char) : Nat :=
  l.foldl (fun acc c => 10 * acc + (c.toNat - 48)) 0

/-- Python `int(s)`: optional surrounding whitespace, optional sign, digits;
anything else raises `ValueError`, modelled as `none`. -/
def pyInt? (s : String) : Option Int :=
  match stripChars s.data with
  | '+' :: ds => if ds ≠ [] ∧ ds.all Char.isDigit then some (digitsVal ds) else none
  | '-' :: ds => if ds ≠ [] ∧ ds.all Char.isDigit then some (-(digitsVal ds : Int)) else none
  | ds => if ds ≠ [] ∧ ds.all Char.isDigit then some (digitsVal ds) else none

/-- Model of `re.sub(r'\n{3,}', '\n\n', ·)`: collapse every run of three or more
newlines to exactly two. -/
def squeezeNl : List Char → List Char
  | '\n' :: '\n' :: '\n' :: rest => squeezeNl ('\n' :: '\n' :: rest)
  | x :: rest => x :: squeezeNl rest
  | [] => []

/-- Model of `re.sub(r' {2,}', ' ', ·)`: collapse every run of two or more spaces
to exactly one. -/
def squeezeSpaces : List Char → List Char
  | ' ' :: ' ' :: rest => squeezeSpaces (' ' :: rest)
  | x :: rest => x :: squeezeSpaces rest
  | [] => []

/-- The whitespace clean-up applied to the joined body text
(`local_content_extractor.py` lines 116-119). -/
def cleanupBody (s : String) : String :=
  String.mk (stripChars (squeezeSpaces (squeezeNl s.data)))

/-! ## HTML document model -/

/-- An HTML node: an element with tag, attributes and children, or a text
node.  Attribute lists associate attribute names to values. -/
inductive Node where
  | elem (tag : String) (attrs : List (String × String)) (children : List Node)
  | text (s : String)

/-- Attribute lookup (`tag.get(name)` / `tag[name]`). -/
def attrOf (attrs : List (String × String)) (name : String) : Option String :=
  (attrs.lookup name)

mutual
/-- First node (pre-order, the node itself included) whose tag and
attributes satisfy `p`; models `soup.find` / `select_one` document order. -/
def findNode (p : String → List (String × String) → Bool) : Node → Option Node
  | .text _ => none
  | .elem t a c => if p t a then some (.elem t a c) else findNodes p c

/-- First matching node over a forest, in document order. -/
def findNodes (p : String → List (String × String) → Bool) :
    List Node → Option Node
  | [] => none
  | n :: ns =>
    match findNode p n with
    | some r => some r
    | none => findNodes p ns
end

mutual
/-- All matching nodes of a tree in pre-order, nested matches included;
models `find_all` document order. -/
def allNode (p : String → List (String × String) → Bool) : Node → List Node
  | .text _ => []
  | .elem t a c =>
    if p t a then .elem t a c :: allNodes p c else allNodes p c

/-- All matching nodes over a forest. -/
def allNodes (p : String → List (String × String) → Bool) :
    List Node → List Node
  | [] => []
  | n :: ns => allNode p n ++ allNodes p ns
end

mutual
/-- Model of `get_text(strip=True)`: concatenate every descendant string, each piece
stripped.  (BeautifulSoup joins stripped pieces with an empty separator.) -/
def textOf : Node → String
  | .text s => String.mk (stripChars s.data)
  | .elem _ _ c => textsOf c

/-- Model of `get_text(strip=True)` over a forest of children. -/
def textsOf : List Node → String
  | [] => ""
  | n :: ns => textOf n ++ textsOf ns
end

/-- Tag of a node (text nodes have none). -/
def tagOf : Node → Option String
  | .elem t _ _ => some t
  | .text _ => none

/-- Attributes of a node. -/
def nodeAttrs : Node → List (String × String)
  | .elem _ a _ => a
  | .text _ => []

/-- Children of a node (`find_all` searches descendants, not the node). -/
def childrenOf : Node → List Node
  | .elem _ _ c => c
  | .text _ => []

/-- First element with the given tag, in document order. -/
def findTag (t : String) (doc : List Node) : Option Node :=
  findNodes (fun tag _ => tag == t) doc

/-- First `meta` element whose attribute `key` equals `val`
(`soup.find('meta', property='og:title')` and friends). -/
def findMetaWith (key val : String) (doc : List Node) : Option Node :=
  findNodes (fun tag a => tag == "meta" && attrOf a key == some val) doc

/-- BeautifulSoup multi-valued `class` match: the `class` attribute split on
whitespace contains the sought class. -/
def classContains (a : List (String × String)) (cls : String) : Bool :=
  match attrOf a "class" with
  | some v => (v.split isWS).contains cls
  | none => false

/-! ## LocalContentExtractor (`local_content_extractor.py`) -/

/-- The four title strategies of `_extract_title`, in source order; `none`
models a missing element or a `KeyError` on a missing `content` attribute,
both swallowed by the bare `except`. -/
def titleStrategies (doc : List Node) : List (Option String) :=
  [ (findTag "h1" doc).map textOf,
    (findTag "title" doc).map textOf,
    (findMetaWith "property" "og:title" doc).bind (fun n => attrOf (nodeAttrs n) "content"),
    (findMetaWith "name" "title" doc).bind (fun n => attrOf (nodeAttrs n) "content") ]

/-- The strategy loop: return the first truthy (non-empty) result,
falling back to the literal `"Untitled"`. -/
def firstTruthy : List (Option String) → String
  | [] => "Untitled"
  | o :: rest =>
    match o with
    | some t => if t ≠ "" then t else firstTruthy rest
    | none => firstTruthy rest

/-- Model of `LocalContentExtractor._extract_title`. -/
def extract_title (doc : List Node) : String :=
  firstTruthy (titleStrategies doc)

/-- Tags decomposed at the start of `_extract_body`. -/
def unwantedTags : List String :=
  ["script", "style", "nav", "header", "footer", "aside", "iframe"]

mutual
/-- Model of `element.decompose()` over one node: remove the whole subtree when the
tag is unwanted, otherwise scrub the children. -/
def scrubNode : Node → Option Node
  | .text s => some (.text s)
  | .elem t a c =>
    if unwantedTags.contains t then none else some (.elem t a (scrubNodes c))

/-- Scrub a forest. -/
def scrubNodes : List Node → List Node
  | [] => []
  | n :: ns =>
    match scrubNode n with
    | some m => m :: scrubNodes ns
    | none => scrubNodes ns
end

/-- First `some` in a strategy chain of `select_one` results. -/
def firstSome : List (Option Node) → Option Node
  | [] => none
  | o :: rest =>
    match o with
    | some n => some n
    | none => firstSome rest

/-- The main-content fallback chain of `_extract_body`: `main`, `article`,
`[role="main"]`, then `#content`, `#main-content`, `.content`,
`.main-content`, `.article-body`, then `body`. -/
def selectMain (doc : List Node) : Option Node :=
  firstSome
    [ findTag "main" doc,
      findTag "article" doc,
      findNodes (fun _ a => attrOf a "role" == some "main") doc,
      findNodes (fun _ a => attrOf a "id" == some "content") doc,
      findNodes (fun _ a => attrOf a "id" == some "main-content") doc,
      findNodes (fun _ a => classContains a "content") doc,
      findNodes (fun _ a => classContains a "main-content") doc,
      findNodes (fun _ a => classContains a "article-body") doc,
      findTag "body" doc ]

/-- The element kinds collected as text parts. -/
def textTags : List String :=
  ["p", "h1", "h2", "h3", "h4", "h5", "h6", "li", "td", "th", "div"]

/-- One iteration of the text-part loop: keep a fragment when its stripped
text is truthy and longer than 20 characters, with markdown formatting for
`h1`-`h3` and `li`. -/
def formatPart (n : Node) : Option String :=
  let text := textOf n
  if text ≠ "" ∧ 20 < text.length then
    some (match tagOf n with
      | some "h1" => "\n\n**" ++ text ++ "**\n"
      | some "h2" => "\n\n**" ++ text ++ "**\n"
      | some "h3" => "\n\n**" ++ text ++ "**\n"
      | some "li" => "- " ++ text
      | _ => text)
  else none

/-- Model of `_extract_body` on an already-scrubbed document. -/
def extract_body (scrubbed : List Node) : String :=
  match selectMain scrubbed with
  | none => ""
  | some mc =>
    cleanupBody (String.intercalate "\n\n"
      ((allNodes (fun t _ => textTags.contains t) (childrenOf mc)).filterMap formatPart))

/-- Model of `urlparse(u).scheme` for the `scheme://netloc/...` URLs this service
accepts (request validation restricts schemes to http/https). -/
def urlScheme (u : String) : String :=
  String.mk (u.data.takeWhile (fun c => c != ':'))

/-- Model of `urlparse(u).netloc` for `scheme://netloc/...` URLs. -/
def urlNetloc (u : String) : String :=
  String.mk (((u.data.dropWhile (fun c => c != ':')).drop 3).takeWhile
    (fun c => c != '/' && c != '?' && c != '#'))

/-- Python `s.startswith(pre)`: the characters of `pre` are a prefix of
the characters of `s`. -/
def pyStartsWith (s pre : String) : Bool :=
  pre.data.isPrefixOf s.data

/-- Model of `src = img.get('src') or img.get('data-src')`. -/
def srcOf (a : List (String × String)) : Option String :=
  pyOr (attrOf a "src") (attrOf a "data-src")

/-- The icon filter of `_extract_images`: `int(width)` is evaluated first,
and `or` short-circuits, so a height that fails to parse is only reached
when the width parsed at least 100; any parse failure falls into the bare
`except: pass` and does not skip. -/
def dimsSkip (w h : Option String) : Bool :=
  strTruthy w && strTruthy h &&
    (match pyInt? (w.getD "") with
     | none => false
     | some wi =>
       if wi < 100 then true
       else
         match pyInt? (h.getD "") with
         | none => false
         | some hi => decide (hi < 100))

/-- URL normalization of `_extract_images`: protocol-relative gets `https:`,
root-relative is resolved against the base URL, anything else not starting
with `http` is discarded. -/
def normalizeSrc (base_url src : String) : Option String :=
  if pyStartsWith src "//" then some ("https:" ++ src)
  else if pyStartsWith src "/" then
    some (urlScheme base_url ++ "://" ++ urlNetloc base_url ++ src)
  else if !pyStartsWith src "http" then none
  else some src

/-- One iteration of the image loop: `some` is the URL appended to
`images`, `none` a `continue`. -/
def imageOf (base_url : String) (a : List (String × String)) : Option String :=
  let src0 := srcOf a
  if strTruthy src0 then
    if dimsSkip (attrOf a "width") (attrOf a "height") then none
    else normalizeSrc base_url (src0.getD "")
  else none

/-- The accumulation loop over all `img` elements. -/
def collectImages (base_url : String) : List Node → List String
  | [] => []
  | n :: rest =>
    match imageOf base_url (nodeAttrs n) with
    | some s => s :: collectImages base_url rest
    | none => collectImages base_url rest

/-- All `img` elements of a document, in document order. -/
def allImgs (doc : List Node) : List Node :=
  allNodes (fun t _ => t == "img") doc

/-- Model of `LocalContentExtractor._extract_images`: collect, then `images[:10]`. -/
def extract_images (doc : List Node) (base_url : String) : List String :=
  (collectImages base_url (allImgs doc)).take 10

/-- The `{title, body, images}` result of `extract_content`. -/
structure Extracted where
  title : String
  body : String
  images : List String
deriving DecidableEq

/-- Model of `LocalContentExtractor.extract_content`, happy path.  `_extract_body`
decomposes unwanted elements from the shared soup in place, so
`_extract_images` runs on the scrubbed document; the title is extracted
first, from the intact document. -/
def extract_content (doc : List Node) (url : String) : Extracted :=
  let title := extract_title doc
  let scrubbed := scrubNodes doc
  { title := title, body := extract_body scrubbed, images := extract_images scrubbed url }

/-- Model of `extract_content` with its enclosing `try/except`: `none` models an
internal exception, degraded to all-empty fields. -/
def extract_content_guarded : Option (List Node) → String → Extracted
  | none, _ => ⟨"", "", []⟩
  | some doc, url => extract_content doc url

/-! ## PopupDetector (`popup_detector.py`) -/

/-- One element of the oracle's JSON `elements` array; every field may be
missing (`main.py` reads them with `.get` defaults). -/
structure RawElement where
  etype : Option String
  selector : Option String
  button_text : Option String
  confidence : Option ℚ
deriving DecidableEq

/-- The oracle's JSON response; both top-level fields may be missing. -/
structure RawResponse where
  popups_found : Option Bool
  elements : Option (List RawElement)
deriving DecidableEq

/-- Model of `PopupDetector.detect_popups`: a successful call returns the parsed
JSON as-is; any exception (API error, malformed JSON) degrades to
`{"popups_found": False, "elements": []}`.  `none` models the failure. -/
def detect_popups : Option RawResponse → RawResponse
  | none => ⟨some false, some []⟩
  | some r => r

/-! ## Popup-dismissal loop (`main.py` lines 134-173) -/

/-- The candidate filter of `main.py` line 158:
`confidence > 0.3 and selector` (missing confidence defaults to 0, a
missing or empty selector is falsy). -/
def qualifies (e : RawElement) : Bool :=
  decide (mkRat 3 10 < e.confidence.getD 0) && strTruthy e.selector

/-- The inner candidate scan of one attempt (lines 149-162): returns the
elements actually passed to `click_element`, in order, and `clicked_any`.
Scanning breaks at the first successful click. -/
def scanCandidates (click : RawElement → Bool) :
    List RawElement → List RawElement × Bool
  | [] => ([], false)
  | e :: rest =>
    if qualifies e then
      if click e then ([e], true)
      else
        let r := scanCandidates click rest
        (e :: r.1, r.2)
    else scanCandidates click rest

/-- How one run of the retry loop ended. -/
inductive ExitKind where
  | cleanExit
  | stalled
  | exhausted
deriving DecidableEq

/-- Observable trace of one run: number of oracle invocations, elements
passed to the interaction engine, and the exit kind. -/
structure LoopTrace where
  oracleCalls : Nat
  invoked : List RawElement
  exit : ExitKind
deriving DecidableEq

/-- The retry loop `for attempt in range(max_popup_retries)`, recursing on
the remaining attempts.  `oracle k` is the (possibly failing) result of the
`k`-th oracle call, `click k` the interaction outcomes during that attempt
(the page changes between attempts, so outcomes may differ). -/
def popupLoop (oracle : Nat → Option RawResponse) (click : Nat → RawElement → Bool) :
    Nat → Nat → LoopTrace
  | 0, _ => ⟨0, [], .exhausted⟩
  | n + 1, k =>
    let resp := detect_popups (oracle k)
    if resp.popups_found.getD false then
      let scan := scanCandidates (click k) (resp.elements.getD [])
      if scan.2 then
        let t := popupLoop oracle click n (k + 1)
        ⟨t.oracleCalls + 1, scan.1 ++ t.invoked, t.exit⟩
      else ⟨1, scan.1, .stalled⟩
    else ⟨1, [], .cleanExit⟩

/-- The loop as entered from `extract_content` in `main.py`. -/
def runPopupLoop (oracle : Nat → Option RawResponse)
    (click : Nat → RawElement → Bool) (maxAttempts : Nat) : LoopTrace :=
  popupLoop oracle click maxAttempts 0

/-! ## BrowserService.click_element (`browser_service.py` lines 66-147) -/

/-- Outcomes of the individual Playwright operations attempted by
`click_element`, as functions of the selector (or button text) they are
given; each `true` means the awaited call returns normally, `false` that
it raises (timeout or otherwise), which the code catches. -/
structure ClickEnv where
  pageAvailable : Bool
  direct : String → Bool
  textButton : String → Bool
  textAny : String → Bool
  forced : String → Bool
  jsFound : String → Bool
  jsClick : String → Bool
  frames : String → Bool

/-- Model of `BrowserService.click_element`: the five-strategy cascade.  Strategy 2
(two text sub-attempts) runs only when `button_text` is truthy; strategy 4
needs `query_selector` to find the element and the JS click to succeed; the
whole body is wrapped in `try/except` returning `False`, so the function
is total and Boolean-valued. -/
def click_element (env : ClickEnv) (selector : String)
    (button_text : Option String) : Bool :=
  if !env.pageAvailable then false
  else if env.direct selector then true
  else if strTruthy button_text && env.textButton (button_text.getD "") then true
  else if strTruthy button_text && env.textAny (button_text.getD "") then true
  else if env.forced selector then true
  else if env.jsFound selector && env.jsClick selector then true
  else if env.frames selector then true
  else false

/-- The ordered outcomes of the five fallback strategies (strategy 2 has
its two text sub-attempts merged in order), for relating `click_element`
to the cascade it implements. -/
def strategyList (env : ClickEnv) (selector : String) (t : Option String) :
    List Bool :=
  [env.direct selector,
   strTruthy t && env.textButton (t.getD ""),
   strTruthy t && env.textAny (t.getD ""),
   env.forced selector,
   env.jsFound selector && env.jsClick selector,
   env.frames selector]

/-! ## Concrete data used by witnesses and counterexamples -/

/-- Candidate list whose members all have confidence at most 0.3
(one of them exactly 0.3, one with no confidence field at all). -/
def wLowElems : List RawElement :=
  [⟨some "button", some "#accept", some "Accept", some (mkRat 3 10)⟩,
   ⟨none, some "#x", none, none⟩]

/-- A high-confidence consent-button candidate. -/
def hiConfE : RawElement :=
  ⟨some "button", some "#accept", some "Accept", some (mkRat 9 10)⟩

/-- An oracle that always reports the high-confidence candidate. -/
def wOracle : Nat → Option RawResponse :=
  fun _ => some ⟨some true, some [hiConfE]⟩

/-- An always-failing oracle (exception / malformed response). -/
def wNoneOracle : Nat → Option RawResponse :=
  fun _ => none

/-- Interaction outcomes that always succeed. -/
def wClick : Nat → RawElement → Bool :=
  fun _ _ => true

/-- A document whose only title source is the `<title>` element. -/
def wTitleDoc : List Node :=
  [.elem "html" [] [.elem "head" [] [.elem "title" [] [.text " My Page "]]]]

/-- The qualifying-image list before the `[:10]` truncation: the image loop
as a declarative filter over all `img` elements in document order. -/
def qualifyingImages (doc : List Node) (base_url : String) : List String :=
  (allImgs doc).filterMap (fun n => imageOf base_url (nodeAttrs n))

/-- A document with 15 qualifying images, in document order. -/
def wImgDoc15 : List Node :=
  [.elem "body" []
    ((List.range 15).map (fun i =>
      .elem "img" [("src", "http://e.com/img" ++ toString i ++ ".png"),
                   ("width", "200"), ("height", "200")] []))]

/-- A document whose only image has a protocol-relative lazy-load source. -/
def wMixedDoc : List Node :=
  [.elem "body" [] [.elem "img" [("data-src", "//cdn.e.com/i.png")] []]]

/-! ## Theorems -/

/-- The strategy loop skips a strategy whose value is missing or empty. -/
theorem firstTruthy_skip (o : Option String) (rest : List (Option String))
    (h : ∀ t, o = some t → t = "") : firstTruthy (o :: rest) = firstTruthy rest := by
  cases o with
  | none => simp [firstTruthy]
  | some t =>
    have ht := h t rfl
    subst ht
    simp [firstTruthy]

/-- The strategy loop returns the first non-empty value. -/
theorem firstTruthy_hit (t : String) (rest : List (Option String)) (h : t ≠ "") :
    firstTruthy (some t :: rest) = t := by
  simp [firstTruthy, h]

/-- The strategy loop never returns the empty string. -/
theorem firstTruthy_ne_empty (L : List (Option String)) : firstTruthy L ≠ "" := by
  induction L with
  | nil => simp [firstTruthy]
  | cons o rest ih =>
    cases o with
    | none => simpa [firstTruthy] using ih
    | some t =>
      by_cases ht : t = ""
      · subst ht
        simpa [firstTruthy] using ih
      · simp [firstTruthy, ht]

/-- The image loop is the filterMap of its per-image body. -/
theorem collectImages_eq_filterMap (base_url : String) (l : List Node) :
    collectImages base_url l = l.filterMap (fun n => imageOf base_url (nodeAttrs n)) := by
  induction l with
  | nil => simp [collectImages]
  | cons n rest ih =>
    cases h : imageOf base_url (nodeAttrs n) with
    | none => simp [collectImages, h, ih]
    | some s => simp [collectImages, h, ih]

/-- C1: during one attempt, a candidate is passed to the interaction engine
only if its confidence is strictly above 0.3 and its selector is truthy;
candidates are tried in the oracle's order (the invoked list is a sublist);
scanning stops at the first successful interaction, so at most one invoked
candidate's click succeeds and `clicked_any` is exactly "some invoked click
succeeded"; and if every candidate has confidence at most 0.3, no candidate
is invoked at all — zero clicks. -/
theorem scan_candidates_policy (click : RawElement → Bool) (es : List RawElement) :
    (∀ e ∈ (scanCandidates click es).1, qualifies e = true) ∧
    (scanCandidates click es).1.Sublist es ∧
    (scanCandidates click es).1.countP click ≤ 1 ∧
    (scanCandidates click es).2 = (scanCandidates click es).1.any click ∧
    ((∀ e ∈ es, e.confidence.getD 0 ≤ mkRat 3 10) →
      (scanCandidates click es).1 = [] ∧ (scanCandidates click es).2 = false) := by
  induction es using scanCandidates.induct click with
  | case1 =>
    simp [scanCandidates]
  | case2 e rest hq hc =>
    rw [show scanCandidates click (e :: rest) = ([e], true) by
      simp [scanCandidates, hq, hc]]
    refine ⟨by simp [hq], ?_, ?_, ?_, ?_⟩
    · simp [List.Sublist.cons₂ e (List.nil_sublist rest)]
    · simp [List.countP_cons, hc]
    · simp [hc]
    · intro h
      have hcle := h e (List.mem_cons_self e rest)
      have hlt : mkRat 3 10 < e.confidence.getD 0 := by
        have := hq
        simp only [qualifies, Bool.and_eq_true, decide_eq_true_eq] at this
        exact this.1
      exact absurd hcle (not_le.mpr hlt)
  | case3 e rest hq hc ih =>
    rw [show scanCandidates click (e :: rest) =
        (e :: (scanCandidates click rest).1, (scanCandidates click rest).2) by
      simp [scanCandidates, hq, hc]]
    obtain ⟨ihq, ihsub, ihcount, ihany, ihlow⟩ := ih
    refine ⟨?_, List.Sublist.cons₂ e ihsub, ?_, ?_, ?_⟩
    · intro x hx
      rcases List.mem_cons.mp hx with h | h
      · exact h ▸ hq
      · exact ihq x h
    · have : click e = false := by
        cases h : click e
        · rfl
        · exact absurd h hc
      simpa [List.countP_cons, this] using ihcount
    · have : click e = false := by
        cases h : click e
        · rfl
        · exact absurd h hc
      simp [this, ihany]
    · intro h
      have hcle := h e (List.mem_cons_self e rest)
      have hlt : mkRat 3 10 < e.confidence.getD 0 := by
        have := hq
        simp only [qualifies, Bool.and_eq_true, decide_eq_true_eq] at this
        exact this.1
      exact absurd hcle (not_le.mpr hlt)
  | case4 e rest hq ih =>
    rw [show scanCandidates click (e :: rest) = scanCandidates click rest by
      simp [scanCandidates, hq]]
    obtain ⟨ihq, ihsub, ihcount, ihany, ihlow⟩ := ih
    refine ⟨ihq, ihsub.cons e, ihcount, ihany, ?_⟩
    intro h
    exact ihlow (fun x hx => h x (List.mem_cons_of_mem e hx))

/-- C1 witness: a list whose candidates all have confidence at most 0.3
produces zero interaction-engine invocations, even with an always-succeeding
click. -/
theorem scan_candidates_policy_witness :
    (∀ e ∈ wLowElems, e.confidence.getD 0 ≤ mkRat 3 10) ∧
    (scanCandidates (fun _ => true) wLowElems).1 = [] ∧
    (scanCandidates (fun _ => true) wLowElems).2 = false := by
  have h : ∀ e ∈ wLowElems, e.confidence.getD 0 ≤ mkRat 3 10 := by decide
  exact ⟨h, ((scan_candidates_policy (fun _ => true) wLowElems).2.2.2.2 h).1,
    ((scan_candidates_policy (fun _ => true) wLowElems).2.2.2.2 h).2⟩

/-- Behaviour of the retry loop, generalized over the remaining-attempt
count `n` and the index `k` of the next oracle call. -/
theorem popupLoop_spec (oracle : Nat → Option RawResponse)
    (click : Nat → RawElement → Bool) :
    ∀ n k,
      (popupLoop oracle click n k).oracleCalls ≤ n ∧
      ((popupLoop oracle click n k).exit = .exhausted →
        (popupLoop oracle click n k).oracleCalls = n) ∧
      ((popupLoop oracle click n k).exit = .cleanExit →
        (detect_popups (oracle (k + (popupLoop oracle click n k).oracleCalls - 1))).popups_found.getD
          false = false) ∧
      ((popupLoop oracle click n k).exit = .stalled →
        (scanCandidates (click (k + (popupLoop oracle click n k).oracleCalls - 1))
          ((detect_popups
            (oracle (k + (popupLoop oracle click n k).oracleCalls - 1))).elements.getD [])).2 =
          false) := by
  intro n
  induction n with
  | zero =>
    intro k
    refine ⟨le_refl 0, fun _ => rfl, fun h => ?_, fun h => ?_⟩ <;> simp [popupLoop] at h
  | succ m ih =>
    intro k
    by_cases hp : (detect_popups (oracle k)).popups_found.getD false
    · by_cases hs :
        (scanCandidates (click k) ((detect_popups (oracle k)).elements.getD [])).2
      · have hred : popupLoop oracle click (m + 1) k =
            ⟨(popupLoop oracle click m (k + 1)).oracleCalls + 1,
             (scanCandidates (click k) ((detect_popups (oracle k)).elements.getD [])).1 ++
               (popupLoop oracle click m (k + 1)).invoked,
             (popupLoop oracle click m (k + 1)).exit⟩ := by
          simp [popupLoop, hp, hs]
        obtain ⟨ihle, ihex, ihclean, ihstall⟩ := ih (k + 1)
        rw [hred]
        refine ⟨by simpa using Nat.succ_le_succ ihle, ?_, ?_, ?_⟩
        · intro h
          show (popupLoop oracle click m (k + 1)).oracleCalls + 1 = m + 1
          have := ihex h
          omega
        · intro h
          have harith : k + ((popupLoop oracle click m (k + 1)).oracleCalls + 1) - 1 =
              k + 1 + (popupLoop oracle click m (k + 1)).oracleCalls - 1 := by omega
          simpa [harith] using ihclean h
        · intro h
          have harith : k + ((popupLoop oracle click m (k + 1)).oracleCalls + 1) - 1 =
              k + 1 + (popupLoop oracle click m (k + 1)).oracleCalls - 1 := by omega
          simpa [harith] using ihstall h
      · have hred : popupLoop oracle click (m + 1) k =
            ⟨1, (scanCandidates (click k) ((detect_popups (oracle k)).elements.getD [])).1,
             .stalled⟩ := by
          simp [popupLoop, hp, hs]
        rw [hred]
        refine ⟨by show (1 : Nat) ≤ m + 1; omega, by intro h; simp at h,
          by intro h; simp at h, ?_⟩
        intro _
        simpa using (by simpa using hs : _)
    · have hred : popupLoop oracle click (m + 1) k = ⟨1, [], .cleanExit⟩ := by
        simp [popupLoop, hp]
      rw [hred]
      refine ⟨by show (1 : Nat) ≤ m + 1; omega, by intro h; simp at h, ?_,
        by intro h; simp at h⟩
      intro _
      simpa using hp

/-- C2: for every `maxAttempts = N`, one run invokes the oracle at most `N`
times (exactly `N` when the loop ends by exhaustion), and the loop always
terminates — by exhausting the attempts, by a clean exit in which the last
oracle response reported no popups, or by a stall in which the last
attempt's candidate scan produced no successful click.  (Termination itself
is the totality of `popupLoop`, which recurses on the decreasing
remaining-attempt count.) -/
theorem popup_loop_terminates (oracle : Nat → Option RawResponse)
    (click : Nat → RawElement → Bool) (N : Nat) :
    (runPopupLoop oracle click N).oracleCalls ≤ N ∧
    ((runPopupLoop oracle click N).exit = .exhausted →
      (runPopupLoop oracle click N).oracleCalls = N) ∧
    ((runPopupLoop oracle click N).exit = .cleanExit →
      (detect_popups
        (oracle ((runPopupLoop oracle click N).oracleCalls - 1))).popups_found.getD false =
        false) ∧
    ((runPopupLoop oracle click N).exit = .stalled →
      (scanCandidates (click ((runPopupLoop oracle click N).oracleCalls - 1))
        ((detect_popups
          (oracle ((runPopupLoop oracle click N).oracleCalls - 1))).elements.getD [])).2 =
        false) := by
  have h := popupLoop_spec oracle click N 0
  simpa [runPopupLoop] using h

/-- C2 witness: with an oracle that always reports a clickable popup and
clicks that always succeed, a run with `maxAttempts = 2` exhausts its
attempts and makes exactly 2 oracle calls. -/
theorem popup_loop_terminates_witness :
    (runPopupLoop wOracle wClick 2).exit = .exhausted ∧
    (runPopupLoop wOracle wClick 2).oracleCalls = 2 :=
  ⟨rfl, (popup_loop_terminates wOracle wClick 2).2.1 rfl⟩

/-- C3: `click_element` is a total Boolean function (the embedding of
"never raises": every strategy failure is caught and falls through), and it
returns `true` exactly when the page is available and some strategy in the
ordered cascade succeeds — equivalently, it returns `false` exactly when
all five strategies exhaust (or no page is available). -/
theorem click_element_cascade (env : ClickEnv) (selector : String)
    (t : Option String) :
    click_element env selector t =
      (env.pageAvailable && (strategyList env selector t).any id) := by
  simp only [click_element, strategyList, List.any_cons, List.any_nil, id]
  split_ifs with h1 h2 h3 h4 h5 h6 h7 <;> simp_all

/-- C4: the popup oracle's failure modes are absorbed: a malformed or
failed oracle response degrades to `popups_found = false` with no elements;
a candidate with a missing confidence field defaults to confidence 0 and is
never passed to the interaction engine; and an oracle failure on the first
attempt makes the whole retry loop exit cleanly after one call with zero
interaction-engine invocations — it never propagates as a fault into the
interaction or extraction stages. -/
theorem detect_popups_defensive (oracle : Nat → Option RawResponse)
    (click : Nat → RawElement → Bool) (f : RawElement → Bool)
    (e : RawElement) (N : Nat) :
    (detect_popups none).popups_found = some false ∧
    (detect_popups none).elements = some [] ∧
    (e.confidence = none → scanCandidates f [e] = ([], false)) ∧
    (oracle 0 = none → 1 ≤ N → runPopupLoop oracle click N = ⟨1, [], .cleanExit⟩) := by
  refine ⟨rfl, rfl, ?_, ?_⟩
  · intro hc
    have hq : qualifies e = false := by
      simp [qualifies, hc, show ¬ (mkRat 3 10 < (0 : ℚ)) from by decide]
    simp [scanCandidates, hq]
  · intro h0 hN
    obtain ⟨m, rfl⟩ : ∃ m, N = m + 1 := ⟨N - 1, by omega⟩
    simp [runPopupLoop, popupLoop, h0, detect_popups]

/-- C5: title resolution tries, in order, the first `h1`'s text, the
`title` element's text, the `og:title` meta tag's `content`, and a
`name="title"` meta tag's `content`, returning the first non-empty result
and falling back to the literal `"Untitled"`.  In particular, when no `h1`
yields text and a `title` element has non-empty text, the resolved title is
the `title` element's text. -/
theorem extract_title_fallback (doc : List Node) :
    (∀ n, findTag "h1" doc = some n → textOf n ≠ "" → extract_title doc = textOf n) ∧
    ((∀ m, findTag "h1" doc = some m → textOf m = "") →
      ∀ n, findTag "title" doc = some n → textOf n ≠ "" → extract_title doc = textOf n) ∧
    ((∀ m, findTag "h1" doc = some m → textOf m = "") →
      (∀ m, findTag "title" doc = some m → textOf m = "") →
      ∀ n c, findMetaWith "property" "og:title" doc = some n →
        attrOf (nodeAttrs n) "content" = some c → c ≠ "" → extract_title doc = c) ∧
    ((∀ m, findTag "h1" doc = some m → textOf m = "") →
      (∀ m, findTag "title" doc = some m → textOf m = "") →
      (∀ m c, findMetaWith "property" "og:title" doc = some m →
        attrOf (nodeAttrs m) "content" = some c → c = "") →
      ∀ n c, findMetaWith "name" "title" doc = some n →
        attrOf (nodeAttrs n) "content" = some c → c ≠ "" → extract_title doc = c) ∧
    ((∀ m, findTag "h1" doc = some m → textOf m = "") →
      (∀ m, findTag "title" doc = some m → textOf m = "") →
      (∀ m c, findMetaWith "property" "og:title" doc = some m →
        attrOf (nodeAttrs m) "content" = some c → c = "") →
      (∀ m c, findMetaWith "name" "title" doc = some m →
        attrOf (nodeAttrs m) "content" = some c → c = "") →
      extract_title doc = "Untitled") := by
  have hskip1 : (∀ m, findTag "h1" doc = some m → textOf m = "") →
      ∀ rest, firstTruthy ((findTag "h1" doc).map textOf :: rest) = firstTruthy rest := by
    intro h rest
    refine firstTruthy_skip _ _ ?_
    intro t ht
    rcases Option.map_eq_some'.mp ht with ⟨m, hm, rfl⟩
    exact h m hm
  have hskip2 : (∀ m, findTag "title" doc = some m → textOf m = "") →
      ∀ rest, firstTruthy ((findTag "title" doc).map textOf :: rest) = firstTruthy rest := by
    intro h rest
    refine firstTruthy_skip _ _ ?_
    intro t ht
    rcases Option.map_eq_some'.mp ht with ⟨m, hm, rfl⟩
    exact h m hm
  have hskip3 : (∀ m c, findMetaWith "property" "og:title" doc = some m →
      attrOf (nodeAttrs m) "content" = some c → c = "") →
      ∀ rest, firstTruthy
        ((findMetaWith "property" "og:title" doc).bind
          (fun n => attrOf (nodeAttrs n) "content") :: rest) = firstTruthy rest := by
    intro h rest
    refine firstTruthy_skip _ _ ?_
    intro t ht
    rcases Option.bind_eq_some.mp ht with ⟨m, hm, hc⟩
    exact h m t hm hc
  refine ⟨?_, ?_, ?_, ?_, ?_⟩
  · intro n hn hne
    rw [extract_title, titleStrategies, hn]
    exact firstTruthy_hit _ _ hne
  · intro h1 n hn hne
    rw [extract_title, titleStrategies, hskip1 h1, hn]
    exact firstTruthy_hit _ _ hne
  · intro h1 h2 n c hn hc hne
    rw [extract_title, titleStrategies, hskip1 h1, hskip2 h2, hn]
    rw [show (some n).bind (fun n => attrOf (nodeAttrs n) "content") = some c from hc]
    exact firstTruthy_hit _ _ hne
  · intro h1 h2 h3 n c hn hc hne
    rw [extract_title, titleStrategies, hskip1 h1, hskip2 h2, hskip3 h3, hn]
    rw [show (some n).bind (fun n => attrOf (nodeAttrs n) "content") = some c from hc]
    exact firstTruthy_hit _ _ hne
  · intro h1 h2 h3 h4
    rw [extract_title, titleStrategies, hskip1 h1, hskip2 h2, hskip3 h3]
    rw [firstTruthy_skip _ _ (fun t ht => by
      rcases Option.bind_eq_some.mp ht with ⟨m, hm, hc⟩
      exact h4 m t hm hc)]
    rfl

/-- C5 witness: a document containing only a `title` element (no heading,
no meta tags) resolves to that element's stripped text. -/
theorem extract_title_fallback_witness : extract_title wTitleDoc = "My Page" := by
  have h := (extract_title_fallback wTitleDoc).2.1
    (fun m hm => by
      rw [show findTag "h1" wTitleDoc = (none : Option Node) from rfl] at hm
      exact Option.noConfusion hm)
    (Node.elem "title" [] [Node.text " My Page "]) rfl (by decide)
  exact h.trans (by decide)

/-- C6 counterexample: the claim says an image is skipped only when BOTH
dimension attributes parse as integers, and that attributes that fail to
parse never cause a skip.  But `int(width) < 100 or int(height) < 100`
short-circuits: with `width="50"` (parses, below 100) and `height="x"`
(does not parse), the image with a valid absolute source is skipped. -/
theorem image_dims_shortcircuit_cex :
    extract_images
      [Node.elem "img" [("src", "http://e.com/c.png"), ("width", "50"), ("height", "x")] []]
      "http://e.com" = [] ∧
    pyInt? "x" = none ∧ pyInt? "50" = some 50 :=
  ⟨rfl, rfl, rfl⟩

/-- C6 (amended): an image is skipped exactly when both dimension
attributes are present and non-empty and either the width parses as an
integer below 100, or the width parses as an integer at least 100 and the
height parses as an integer below 100.  (A width that fails to parse never
causes a skip; the height is only examined when the width parsed at least
100, so a malformed height does not prevent the skip that a sub-100 width
already triggered.)  The claim's concrete instances hold: a 50x50 image is
excluded and a 200x150 image is included, given valid absolute sources. -/
theorem dims_skip_characterization (w h : Option String) :
    (dimsSkip w h = true ↔
      strTruthy w = true ∧ strTruthy h = true ∧
      ∃ wi, pyInt? (w.getD "") = some wi ∧
        (wi < 100 ∨ (100 ≤ wi ∧ ∃ hi, pyInt? (h.getD "") = some hi ∧ hi < 100))) ∧
    extract_images
      [Node.elem "img" [("src", "http://e.com/a.png"), ("width", "50"), ("height", "50")] []]
      "http://e.com" = [] ∧
    extract_images
      [Node.elem "img" [("src", "http://e.com/b.png"), ("width", "200"), ("height", "150")] []]
      "http://e.com" = ["http://e.com/b.png"] := by
  refine ⟨?_, rfl, rfl⟩
  cases hw : strTruthy w <;> cases hh : strTruthy h <;>
    simp only [dimsSkip, hw, hh, Bool.false_and, Bool.true_and, Bool.and_false, Bool.and_true]
  · simp
  · simp
  · simp
  · cases hpw : pyInt? (w.getD "") with
    | none => simp
    | some wi =>
      by_cases hlt : wi < 100
      · simp [hlt]
      · cases hph : pyInt? (h.getD "") with
        | none => simp [hlt]
        | some hi =>
          show (if wi < 100 then true else decide (hi < 100)) = true ↔
            True ∧ True ∧ ∃ wi2, some wi = some wi2 ∧
              (wi2 < 100 ∨ 100 ≤ wi2 ∧ ∃ hi2, some hi = some hi2 ∧ hi2 < 100)
          rw [if_neg hlt]
          constructor
          · intro hd
            exact ⟨trivial, trivial, wi, rfl,
              Or.inr ⟨by omega, hi, rfl, of_decide_eq_true hd⟩⟩
          · rintro ⟨-, -, wi2, hwi2, hcase⟩
            cases hwi2
            rcases hcase with hcase | ⟨-, hi2, hhi2, hlt3⟩
            · exact absurd hcase hlt
            · cases hhi2
              exact decide_eq_true hlt3

/-- C7: the image list returned by `_extract_images` is exactly the first
10 qualifying images in document order; in particular, with 15 qualifying
images exactly 10 are returned. -/
theorem extract_images_first_ten (doc : List Node) (base_url : String) :
    extract_images doc base_url = (qualifyingImages doc base_url).take 10 ∧
    ((qualifyingImages doc base_url).length = 15 →
      (extract_images doc base_url).length = 10) := by
  have h : extract_images doc base_url = (qualifyingImages doc base_url).take 10 := by
    rw [extract_images, collectImages_eq_filterMap]
    rfl
  refine ⟨h, ?_⟩
  intro hlen
  rw [h, List.length_take, hlen]
  decide

/-- C7 witness: a document with 15 qualifying images yields exactly 10. -/
theorem extract_images_first_ten_witness :
    (qualifyingImages wImgDoc15 "http://e.com").length = 15 ∧
    (extract_images wImgDoc15 "http://e.com").length = 10 :=
  ⟨rfl, (extract_images_first_ten wImgDoc15 "http://e.com").2 rfl⟩

/-- The URL-normalization step only emits strings starting with "http",
given an http(s) base URL. -/
theorem normalizeSrc_http (b src s : String)
    (hb : pyStartsWith b "http://" = true ∨ pyStartsWith b "https://" = true)
    (h : normalizeSrc b src = some s) : pyStartsWith s "http" = true := by
  have hhttp : ∀ t : String, pyStartsWith ("https:" ++ t) "http" = true := by
    intro t
    rw [pyStartsWith, List.isPrefixOf_iff_prefix, String.data_append]
    exact (show "http".data <+: "https:".data from by decide).trans
      (List.prefix_append _ _)
  have hscheme : urlScheme b = "http" ∨ urlScheme b = "https" := by
    rcases hb with hb | hb
    · left
      rw [pyStartsWith, List.isPrefixOf_iff_prefix] at hb
      obtain ⟨r, hr⟩ := hb
      rw [urlScheme, ← hr]
      rw [show "http://".data = ['h', 't', 't', 'p', ':', '/', '/'] from rfl]
      simp only [List.cons_append, List.nil_append]
      rw [List.takeWhile_cons_of_pos (by decide), List.takeWhile_cons_of_pos (by decide),
        List.takeWhile_cons_of_pos (by decide), List.takeWhile_cons_of_pos (by decide),
        List.takeWhile_cons_of_neg (by decide)]
    · right
      rw [pyStartsWith, List.isPrefixOf_iff_prefix] at hb
      obtain ⟨r, hr⟩ := hb
      rw [urlScheme, ← hr]
      rw [show "https://".data = ['h', 't', 't', 'p', 's', ':', '/', '/'] from rfl]
      simp only [List.cons_append, List.nil_append]
      rw [List.takeWhile_cons_of_pos (by decide), List.takeWhile_cons_of_pos (by decide),
        List.takeWhile_cons_of_pos (by decide), List.takeWhile_cons_of_pos (by decide),
        List.takeWhile_cons_of_pos (by decide), List.takeWhile_cons_of_neg (by decide)]
  rw [normalizeSrc] at h
  split_ifs at h with h1 h2 h3
  · cases h
    exact hhttp src
  · cases h
    rcases hscheme with hs | hs
    · rw [hs, pyStartsWith, List.isPrefixOf_iff_prefix, String.data_append,
        String.data_append, String.data_append, List.append_assoc, List.append_assoc]
      exact List.prefix_append _ _
    · rw [hs, pyStartsWith, List.isPrefixOf_iff_prefix, String.data_append,
        String.data_append, String.data_append, List.append_assoc, List.append_assoc]
      exact (show "http".data <+: "https".data from by decide).trans
        (List.prefix_append _ _)
  all_goals first
    | exact Option.noConfusion h
    | (cases h; simpa using h3)

/-- C9: every string in the images list starts with "http":
protocol-relative sources get an `https:` prefix, root-relative sources are
resolved against the page URL's http(s) scheme and host, and any other
source not starting with "http" is discarded before being appended.  (The
service's request validation guarantees the base URL's scheme is http or
https, the hypothesis used here.) -/
theorem extract_images_http (doc : List Node) (base_url : String)
    (hb : pyStartsWith base_url "http://" = true ∨ pyStartsWith base_url "https://" = true)
    (s : String) (hs : s ∈ extract_images doc base_url) : pyStartsWith s "http" = true := by
  have hmem : s ∈ collectImages base_url (allImgs doc) := List.take_subset _ _ hs
  rw [collectImages_eq_filterMap] at hmem
  rcases List.mem_filterMap.mp hmem with ⟨n, _, himg⟩
  rw [imageOf] at himg
  split_ifs at himg with htr hdims
  all_goals first
    | exact Option.noConfusion himg
    | exact normalizeSrc_http _ _ _ hb himg

/-- C9 witness: with an https page URL, a protocol-relative lazy-load image
source is emitted and starts with "http". -/
theorem extract_images_http_witness :
    pyStartsWith "https://cdn.e.com/i.png" "http" = true :=
  extract_images_http wMixedDoc "https://news.example.org/art" (Or.inr (by decide))
    "https://cdn.e.com/i.png" (by decide)

/-- C10: whenever extraction completes without an internal exception, the
returned title is non-empty (at minimum the literal "Untitled"); hence the
service's "no article content found" condition — title and body both
empty — is reachable only through the exception branch that degrades all
fields to empty. -/
theorem extract_content_title_nonempty (doc : List Node) (url : String)
    (o : Option (List Node)) (u2 : String) :
    (extract_content doc url).title ≠ "" ∧
    ((extract_content_guarded o u2).title = "" ∧ (extract_content_guarded o u2).body = "" →
      o = none) := by
  constructor
  · exact firstTruthy_ne_empty _
  · rintro ⟨ht, _⟩
    cases o with
    | none => rfl
    | some d => exact absurd ht (firstTruthy_ne_empty _)

/-- C10 witness: the empty document still gets the "Untitled" fallback, and
the all-empty result arises from the exception branch. -/
theorem extract_content_title_nonempty_witness :
    (extract_content [] "http://e.com").title ≠ "" ∧
    (none : Option (List Node)) = none :=
  ⟨(extract_content_title_nonempty [] "http://e.com" none "http://e.com").1,
   (extract_content_title_nonempty [] "http://e.com" none "http://e.com").2 ⟨rfl, rfl⟩⟩

/-- Dropping a satisfied-prefix leaves a list whose head fails the
predicate. -/
theorem head?_dropWhile_not (p : Char → Bool) (l : List Char) (a : Char)
    (h : (List.dropWhile p l).head? = some a) : p a = false := by
  induction l with
  | nil => exact Option.noConfusion h
  | cons x xs ih =>
    by_cases hp : p x
    · rw [List.dropWhile_cons, if_pos hp] at h
      exact ih h
    · rw [List.dropWhile_cons, if_neg hp] at h
      cases h
      exact Bool.eq_false_iff.mpr hp

/-- Lemma: `dropWhile` is the identity when the head already fails the predicate. -/
theorem dropWhile_of_head_not (p : Char → Bool) (l : List Char)
    (h : ∀ a, l.head? = some a → p a = false) : List.dropWhile p l = l := by
  cases l with
  | nil => rfl
  | cons a t =>
    rw [List.dropWhile_cons, if_neg]
    rw [h a rfl]
    simp

/-- Lemma: `squeezeNl` preserves the head of the list. -/
theorem squeezeNl_head (l : List Char) : (squeezeNl l).head? = l.head? := by
  induction l using squeezeNl.induct with
  | case1 rest ih =>
    rw [show squeezeNl ('\n' :: '\n' :: '\n' :: rest) = squeezeNl ('\n' :: '\n' :: rest) from
      rfl, ih]
    rfl
  | case2 x rest h ih =>
    rw [squeezeNl.eq_2 x rest h]
    rfl
  | case3 => rfl

/-- If the squeezed list starts with two newlines, so does the input. -/
theorem squeezeNl_two (l t : List Char) (h : squeezeNl l = '\n' :: '\n' :: t) :
    ∃ u, l = '\n' :: '\n' :: u := by
  induction l using squeezeNl.induct generalizing t with
  | case1 rest ih => exact ⟨'\n' :: rest, rfl⟩
  | case2 x rest hno ih =>
    rw [squeezeNl.eq_2 x rest hno] at h
    obtain ⟨hx, hsq⟩ := List.cons_eq_cons.mp h
    have hhead : rest.head? = some '\n' := by
      rw [← squeezeNl_head, hsq]
      rfl
    rcases rest with _ | ⟨b, u⟩
    · exact Option.noConfusion hhead
    · cases hhead
      exact ⟨u, by rw [hx]⟩
  | case3 => exact Option.noConfusion (congrArg List.head? h)

/-- The squeezed list contains no run of three newlines. -/
theorem squeezeNl_no3 (l : List Char) : ¬ (['\n', '\n', '\n'] <:+: squeezeNl l) := by
  induction l using squeezeNl.induct with
  | case1 rest ih =>
    rw [show squeezeNl ('\n' :: '\n' :: '\n' :: rest) = squeezeNl ('\n' :: '\n' :: rest) from
      rfl]
    exact ih
  | case2 x rest hno ih =>
    rw [squeezeNl.eq_2 x rest hno]
    intro hinf
    rcases List.infix_cons_iff.mp hinf with hpre | htail
    · obtain ⟨hx, hpre2⟩ := List.cons_prefix_cons.mp hpre
      obtain ⟨t, ht⟩ := hpre2
      obtain ⟨u, hu⟩ := squeezeNl_two rest t ht.symm
      exact hno u hx.symm hu
    · exact ih htail
  | case3 =>
    intro hinf
    simpa [squeezeNl] using hinf.length_le

/-- Lemma: `squeezeNl` fixes any list with no three-newline run. -/
theorem squeezeNl_fix (l : List Char) (h : ¬ (['\n', '\n', '\n'] <:+: l)) :
    squeezeNl l = l := by
  induction l using squeezeNl.induct with
  | case1 rest ih =>
    exact absurd (List.IsPrefix.isInfix ⟨rest, rfl⟩) h
  | case2 x rest hno ih =>
    rw [squeezeNl.eq_2 x rest hno, ih (fun hr => h (List.infix_cons hr))]
  | case3 => rfl

/-- Lemma: `squeezeSpaces` preserves the head of the list. -/
theorem squeezeSpaces_head (l : List Char) : (squeezeSpaces l).head? = l.head? := by
  induction l using squeezeSpaces.induct with
  | case1 rest ih =>
    rw [show squeezeSpaces (' ' :: ' ' :: rest) = squeezeSpaces (' ' :: rest) from rfl, ih]
    rfl
  | case2 x rest h ih =>
    rw [squeezeSpaces.eq_2 x rest h]
    rfl
  | case3 => rfl

/-- The space-squeezed list contains no run of two spaces. -/
theorem squeezeSpaces_no2 (l : List Char) : ¬ ([' ', ' '] <:+: squeezeSpaces l) := by
  induction l using squeezeSpaces.induct with
  | case1 rest ih =>
    rw [show squeezeSpaces (' ' :: ' ' :: rest) = squeezeSpaces (' ' :: rest) from rfl]
    exact ih
  | case2 x rest hno ih =>
    rw [squeezeSpaces.eq_2 x rest hno]
    intro hinf
    rcases List.infix_cons_iff.mp hinf with hpre | htail
    · obtain ⟨hx, hpre2⟩ := List.cons_prefix_cons.mp hpre
      obtain ⟨t, ht⟩ := hpre2
      have hhead : rest.head? = some ' ' := by
        rw [← squeezeSpaces_head, ← ht]
        rfl
      rcases rest with _ | ⟨b, u⟩
      · exact Option.noConfusion hhead
      · cases hhead
        exact hno u hx.symm rfl
    · exact ih htail
  | case3 =>
    intro hinf
    simpa [squeezeSpaces] using hinf.length_le

/-- Lemma: `squeezeSpaces` fixes any list with no two-space run. -/
theorem squeezeSpaces_fix (l : List Char) (h : ¬ ([' ', ' '] <:+: l)) :
    squeezeSpaces l = l := by
  induction l using squeezeSpaces.induct with
  | case1 rest ih =>
    exact absurd (List.IsPrefix.isInfix ⟨rest, rfl⟩) h
  | case2 x rest hno ih =>
    rw [squeezeSpaces.eq_2 x rest hno, ih (fun hr => h (List.infix_cons hr))]
  | case3 => rfl

/-- If the space-squeezed list starts with two newlines, so does the
input. -/
theorem squeezeSpaces_two_nl (l t : List Char)
    (h : squeezeSpaces l = '\n' :: '\n' :: t) : ∃ u, l = '\n' :: '\n' :: u := by
  induction l using squeezeSpaces.induct generalizing t with
  | case1 rest ih =>
    obtain ⟨u, hu⟩ := ih t h
    exact absurd (List.cons_eq_cons.mp hu).1 (by decide)
  | case2 x rest hno ih =>
    rw [squeezeSpaces.eq_2 x rest hno] at h
    obtain ⟨hx, hsq⟩ := List.cons_eq_cons.mp h
    have hhead : rest.head? = some '\n' := by
      rw [← squeezeSpaces_head, hsq]
      rfl
    rcases rest with _ | ⟨b, u⟩
    · exact Option.noConfusion hhead
    · cases hhead
      exact ⟨u, by rw [hx]⟩
  | case3 => exact Option.noConfusion (congrArg List.head? h)

/-- Collapsing space runs cannot create a three-newline run. -/
theorem squeezeSpaces_pres3 (l : List Char) (h : ¬ (['\n', '\n', '\n'] <:+: l)) :
    ¬ (['\n', '\n', '\n'] <:+: squeezeSpaces l) := by
  induction l using squeezeSpaces.induct with
  | case1 rest ih =>
    rw [show squeezeSpaces (' ' :: ' ' :: rest) = squeezeSpaces (' ' :: rest) from rfl]
    refine ih ?_
    intro hr
    rcases List.infix_cons_iff.mp hr with hpre | htail
    · exact absurd (List.cons_prefix_cons.mp hpre).1 (by decide)
    · exact h (List.infix_cons (List.infix_cons htail))
  | case2 x rest hno ih =>
    rw [squeezeSpaces.eq_2 x rest hno]
    intro hinf
    rcases List.infix_cons_iff.mp hinf with hpre | htail
    · obtain ⟨hx, hpre2⟩ := List.cons_prefix_cons.mp hpre
      obtain ⟨t, ht⟩ := hpre2
      obtain ⟨u, hu⟩ := squeezeSpaces_two_nl rest t ht.symm
      refine h (List.IsPrefix.isInfix ⟨u, ?_⟩)
      rw [← hx, hu]
      rfl
    · exact ih (fun hr => h (List.infix_cons hr)) htail
  | case3 =>
    intro hinf
    simpa [squeezeSpaces] using hinf.length_le

/-- Lemma: `stripChars` is Python strip written with Mathlib's `rdropWhile`. -/
theorem stripChars_eq (l : List Char) :
    stripChars l = List.rdropWhile isWS (List.dropWhile isWS l) := rfl

/-- The stripped list occurs inside the original. -/
theorem stripChars_within (l : List Char) : stripChars l <:+: l := by
  rw [stripChars_eq]
  exact ( List.rdropWhile_prefix isWS (List.dropWhile isWS l)).isInfix.trans
    (List.dropWhile_suffix isWS).isInfix

/-- Stripping is idempotent. -/
theorem stripChars_idem (l : List Char) : stripChars (stripChars l) = stripChars l := by
  rw [stripChars_eq (stripChars l), stripChars_eq l]
  have hdw : List.dropWhile isWS (List.rdropWhile isWS (List.dropWhile isWS l)) =
      List.rdropWhile isWS (List.dropWhile isWS l) := by
    refine dropWhile_of_head_not _ _ ?_
    intro a ha
    obtain ⟨t2, ht2⟩ := List.rdropWhile_prefix isWS (List.dropWhile isWS l)
    refine head?_dropWhile_not isWS l a ?_
    rw [← ht2]
    rcases hshape : List.rdropWhile isWS (List.dropWhile isWS l) with _ | ⟨b, t⟩
    · rw [hshape] at ha
      exact Option.noConfusion ha
    · rw [hshape] at ha
      cases ha
      rfl
  rw [hdw, List.rdropWhile_idempotent]

/-- C8: the body whitespace normalization of `_extract_body` — collapse
runs of three or more newlines to two, collapse runs of two or more spaces
to one, trim surrounding whitespace — is idempotent: applied to
already-normalized text it returns the text unchanged. -/
theorem cleanup_body_idempotent (s : String) :
    cleanupBody (cleanupBody s) = cleanupBody s := by
  rw [cleanupBody, cleanupBody]
  congr 1
  rw [show (String.mk (stripChars (squeezeSpaces (squeezeNl s.data)))).data =
    stripChars (squeezeSpaces (squeezeNl s.data)) from rfl]
  have h3 : ¬ (['\n', '\n', '\n'] <:+: stripChars (squeezeSpaces (squeezeNl s.data))) :=
    fun hv => squeezeSpaces_pres3 (squeezeNl s.data) (squeezeNl_no3 s.data)
      (hv.trans (stripChars_within _))
  have h2 : ¬ ([' ', ' '] <:+: stripChars (squeezeSpaces (squeezeNl s.data))) :=
    fun hv => squeezeSpaces_no2 (squeezeNl s.data) (hv.trans (stripChars_within _))
  rw [squeezeNl_fix _ h3, squeezeSpaces_fix _ h2, stripChars_idem]

/-- C4 witness: the all-fields-missing candidate is never invoked, and a
run of 3 attempts against an always-failing oracle stops after one call
with a clean exit and no invocations. -/
theorem detect_popups_defensive_witness :
    scanCandidates (fun _ => false) [⟨none, none, none, none⟩] = ([], false) ∧
    runPopupLoop wNoneOracle wClick 3 = ⟨1, [], .cleanExit⟩ :=
  ⟨(detect_popups_defensive wNoneOracle wClick (fun _ => false) ⟨none, none, none, none⟩ 3).2.2.1
      rfl,
   (detect_popups_defensive wNoneOracle wClick (fun _ => false) ⟨none, none, none, none⟩ 3).2.2.2
      rfl (by decide)⟩

end Browsir
